import Mathlib

/-!
Shallow embedding of `src/pdf_processor.py` (SpiritStack/pdf-utility).

The Python program has four components: a fixed quality-settings table, a
compressor (`compress_pdf` plus `_run_ghostscript` and `_get_gs_preset`), a
splitter (`split_pdf`), and a CLI dispatcher (`main`).  Pure computations
(the preset step function, the page-accumulation loop of the splitter, the
dispatch decision of `main`) are translated directly into Lean functions.
Stateful behaviour (file opens, scratch-directory creation and removal,
subprocess invocation) is embedded as an explicit trace of filesystem
events produced by the call, together with an outcome value; the
environment facts the code branches on (whether reading the input
succeeds, whether the Ghostscript binary is on the path, the engine exit
code, the on-disk input size, the measured per-page estimate sizes) are
passed in as parameters, since they are inputs of the program, not code.

All line numbers refer to `src/pdf_processor.py`.
-/

namespace PdfProcessor

/-- One value of the `PDFProcessor.quality_settings` dictionary
(lines 15-19): a quality percentage and a target DPI. -/
structure QualityProfile where
  quality : Int
  dpi : Int
deriving DecidableEq

/-- The `quality_settings` dictionary of `PDFProcessor.__init__`
(lines 15-19), as an association list in the insertion order of the
Python dict literal. -/
def quality_settings : List (String × QualityProfile) :=
  [("low", ⟨30, 72⟩), ("medium", ⟨60, 150⟩), ("high", ⟨90, 300⟩)]

/-- Dictionary lookup `self.quality_settings[quality]`, with `none`
modelling the `quality not in self.quality_settings` case of line 23. -/
def lookupQuality (q : String) : Option QualityProfile :=
  (quality_settings.find? (fun kv => kv.1 == q)).map (fun kv => kv.2)

/-- `PDFProcessor._get_gs_preset` (lines 130-139): the DPI-to-preset step
function.  The `quality` argument is received exactly as in the source,
where it is never read. -/
def get_gs_preset (dpi quality : Int) : String :=
  if dpi ≤ 72 then "screen"
  else if dpi ≤ 150 then "ebook"
  else if dpi ≤ 300 then "printer"
  else "prepress"

/-- Filesystem/process events a call can perform, in program order.
`openRead p` is `open(p, "rb")`; `writeFile p` is an `open(p, "wb")`
plus write (or the creation of a named temporary file); `removeFile p`
is the deletion of a named temporary file on close; `mkdtempE d` is
`tempfile.mkdtemp()` returning `d`; `rmtreeE d` is `shutil.rmtree(d)`;
`whichGs` is the `shutil.which("gs")` probe; `runGs preset src dst` is
the Ghostscript subprocess, which reads `src` and writes `dst` using
`preset`. -/
inductive FsEvent where
  | openRead (p : String)
  | writeFile (p : String)
  | removeFile (p : String)
  | mkdtempE (d : String)
  | rmtreeE (d : String)
  | whichGs
  | runGs (preset : String) (src dst : String)
deriving DecidableEq

/-- The error kinds of section 7 of the specification.  In the source,
`invalidQuality` is the `ValueError` of line 24, `missingDependency` the
`RuntimeError` of line 110, `externalToolFailed` the `RuntimeError` of
line 128, and `ioError` any exception raised while reading the input,
copying pages, or serializing the intermediate document. -/
inductive CompressError where
  | invalidQuality
  | ioError
  | missingDependency
  | externalToolFailed
deriving DecidableEq

/-- Result of a compression call: normal return or a raised error. -/
inductive Outcome where
  | ok
  | err (e : CompressError)
deriving DecidableEq

/-- Environment facts `compress_pdf` branches on: whether opening,
reading and page-copying of the input succeed, whether serializing the
intermediate document succeeds, whether `shutil.which` finds `gs`, and
the exit code of the Ghostscript subprocess. -/
structure CompressEnv where
  readOk : Bool
  writeOk : Bool
  gsPresent : Bool
  gsExit : Nat
deriving DecidableEq

/-- The path `os.path.join(temp_dir, "temp.pdf")` of line 37. -/
def scratchFile (tempDir : String) : String := tempDir ++ "/temp.pdf"

/-- `PDFProcessor._run_ghostscript` (lines 107-128): probe for `gs`,
raise if absent, otherwise invoke the subprocess and raise on a
non-zero exit. -/
def run_ghostscript (gsPresent : Bool) (gsExit : Nat) (inp outp : String)
    (dpi quality : Int) : List FsEvent × Outcome :=
  if !gsPresent then
    ([.whichGs], .err .missingDependency)
  else if gsExit ≠ 0 then
    ([.whichGs, .runGs (get_gs_preset dpi quality) inp outp], .err .externalToolFailed)
  else
    ([.whichGs, .runGs (get_gs_preset dpi quality) inp outp], .ok)

/-- The `try` body of `compress_pdf` (lines 30-46): open the input for
reading, copy all pages into a fresh writer, serialize it to the scratch
file, then run Ghostscript with the settings of the selected profile. -/
def compressBody (env : CompressEnv) (input_path output_path tempDir : String)
    (s : QualityProfile) : List FsEvent × Outcome :=
  if !env.readOk then
    ([.openRead input_path], .err .ioError)
  else if !env.writeOk then
    ([.openRead input_path, .writeFile (scratchFile tempDir)], .err .ioError)
  else
    ([.openRead input_path, .writeFile (scratchFile tempDir)]
        ++ (run_ghostscript env.gsPresent env.gsExit (scratchFile tempDir) output_path
            s.dpi s.quality).1,
     (run_ghostscript env.gsPresent env.gsExit (scratchFile tempDir) output_path
         s.dpi s.quality).2)

/-- `PDFProcessor.compress_pdf` (lines 21-49): validate the quality name
before any I/O, then `tempfile.mkdtemp()`, then the `try` body, and the
`finally: shutil.rmtree(temp_dir)` as the last action before the call
returns or re-raises. -/
def compress_pdf (env : CompressEnv) (input_path output_path tempDir quality : String) :
    List FsEvent × Outcome :=
  match lookupQuality quality with
  | none => ([], .err .invalidQuality)
  | some s =>
    (FsEvent.mkdtempE tempDir :: ((compressBody env input_path output_path tempDir s).1
        ++ [FsEvent.rmtreeE tempDir]),
     (compressBody env input_path output_path tempDir s).2)

/-- Whether an event creates or removes the scratch directory. -/
def FsEvent.isScratchCtl : FsEvent → Bool
  | .mkdtempE _ => true
  | .rmtreeE _ => true
  | _ => false

/-- Whether a trace contains a Ghostscript subprocess invocation. -/
def invokesEngine (tr : List FsEvent) : Bool :=
  tr.any (fun e => match e with | .runGs _ _ _ => true | _ => false)

/-- The part file name `f"{output_prefix}_part{current_part}.pdf"` of
lines 85 and 100. -/
def partPath (outPre : String) (n : Nat) : String :=
  outPre ++ "_part" ++ toString n ++ ".pdf"

/-- `max_size_bytes = max_size_mb * 1024 * 1024` (line 53). -/
def max_size_bytes (maxMb : Nat) : Nat := maxMb * 1024 * 1024

/-- One part written to disk by the splitter: its file path, the pages it
holds (each page paired with the per-page size measured by the
estimation step of lines 74-79), and the value of
`current_size_estimate` at the moment the part was sealed. -/
structure SealedPart (α : Type) where
  path : String
  pages : List (α × Nat)
  est : Nat
deriving DecidableEq

/-- The `for page in pdf.pages` loop of lines 72-96, as structural
recursion over the remaining pages.  Loop state: `cp` is
`current_part`, `cur` the pages held by `current_writer`, `est` is
`current_size_estimate`.  Each input page arrives paired with the size
its one-page serialization measured at lines 74-79 (an environment
fact, passed in).  Returns the sealed parts in the order written plus
the final loop state. -/
def splitLoop (outPre : String) (maxB : Nat) :
    List (α × Nat) → Nat → List (α × Nat) → Nat →
      List (SealedPart α) × Nat × List (α × Nat) × Nat
  | [], cp, cur, est => ([], cp, cur, est)
  | (pg, sz) :: rest, cp, cur, est =>
    if maxB < est + sz ∧ 0 < cur.length then
      (⟨partPath outPre cp, cur, est⟩
          :: (splitLoop outPre maxB rest (cp + 1) [(pg, sz)] sz).1,
       (splitLoop outPre maxB rest (cp + 1) [(pg, sz)] sz).2)
    else
      splitLoop outPre maxB rest cp (cur ++ [(pg, sz)]) (est + sz)

/-- Lines 98-103: after the loop, seal the final part if it is
non-empty. -/
def splitFinal (outPre : String)
    (r : List (SealedPart α) × Nat × List (α × Nat) × Nat) :
    List (SealedPart α) :=
  if 0 < r.2.2.1.length then
    r.1 ++ [⟨partPath outPre r.2.1, r.2.2.1, r.2.2.2⟩]
  else r.1

/-- `PDFProcessor.split_pdf` (lines 51-105).  `inputSize` is
`os.path.getsize(input_path)` (line 61) and `pages` the document pages
paired with their measured per-page estimate sizes, both environment
facts.  The default computation of `output_prefix` from `input_path`
(lines 56-58) is outside this embedding: `outPre` is taken as given.
Returns the parts written to disk together with the returned list of
paths (the written part paths, or the original input path in the
short-circuit case of lines 62-64). -/
def split_pdf (input_path : String) (maxMb : Nat) (outPre : String)
    (inputSize : Nat) (pages : List (α × Nat)) :
    List (SealedPart α) × List String :=
  if inputSize ≤ max_size_bytes maxMb then
    ([], [input_path])
  else
    (splitFinal outPre (splitLoop outPre (max_size_bytes maxMb) pages 1 [] 0),
     (splitFinal outPre (splitLoop outPre (max_size_bytes maxMb) pages 1 [] 0)).map
       (fun p => p.path))

/-- The part paths `partPath outPre cp, partPath outPre (cp + 1), ...`
for `n` consecutive part numbers starting at `cp`. -/
def pathsFrom (outPre : String) : Nat → Nat → List String
  | _, 0 => []
  | cp, n + 1 => partPath outPre cp :: pathsFrom outPre (cp + 1) n

/-- Invariant of a page accumulation (`current_writer` plus
`current_size_estimate`): the estimate is the sum of the held page
sizes, an accumulation holding two or more pages is within the byte
budget, and a page whose own estimate exceeds the budget is alone. -/
def InvCur (maxB : Nat) (cur : List (α × Nat)) (est : Nat) : Prop :=
  est = (cur.map Prod.snd).sum
  ∧ (2 ≤ cur.length → est ≤ maxB)
  ∧ (∀ q ∈ cur, maxB < q.2 → cur.length = 1)

/-- The filesystem events of a `split_pdf` call.  Line 60 opens the
input for reading before the size check; in the short-circuit case
nothing else touches the filesystem.  Otherwise the loop serializes a
one-page document to a fresh named temporary file per page (lines
74-79, paths `tmps`, deleted on close by `delete=True`) and writes each
sealed part (lines 85-88 and 99-103).  The source interleaves the
estimation and part writes page by page; the trace here lists the same
events grouped, which frame statements do not distinguish. -/
def split_fsTrace (input_path outPre : String) (maxMb inputSize : Nat)
    (pages : List (α × Nat)) (tmps : List String) : List FsEvent :=
  if inputSize ≤ max_size_bytes maxMb then
    [.openRead input_path]
  else
    FsEvent.openRead input_path
      :: ((tmps.map (fun t => [FsEvent.writeFile t, FsEvent.removeFile t])).flatten
          ++ (split_pdf input_path maxMb outPre inputSize pages).1.map
              (fun p => FsEvent.writeFile p.path))

/-- The command-line argument record built by `argparse` (lines
142-157): positional input, optional output, quality (default
"medium"), optional split size in MB, optional output name stem,
verbose flag. -/
structure Args where
  input : String
  output : Option String
  quality : String
  split : Option Int
  outPre : Option String
  verbose : Bool
deriving DecidableEq

/-- The dispatch decision of `main` (lines 164-186), after the
input-existence check of lines 160-162 has passed. -/
inductive MainAction where
  | runSplit (input : String) (sizeMb : Int) (outPre : Option String)
  | runCompress (input : String) (output quality : String)
  | errorExit (msg : String)
deriving DecidableEq

/-- Whether a dispatch decision is the split branch of `main`. -/
def MainAction.isSplitMode : MainAction → Bool
  | .runSplit _ _ _ => true
  | _ => false

/-- The compress branch of `main` (lines 176-186).  Line 177 is
`if not args.output:`, Python string truthiness: the output is falsy
both when absent and when it is the empty string, and in either case
the program prints an error to stderr and exits 1 (modelled as
`errorExit`); otherwise it calls the compressor. -/
def compressRoute (args : Args) : MainAction :=
  match args.output with
  | none => .errorExit "Output path required for compression."
  | some out =>
    if out = "" then .errorExit "Output path required for compression."
    else .runCompress args.input out args.quality

/-- The routing of `main` (line 165): `if args.split:` is Python
truthiness, so the split branch is taken exactly when a split size was
given AND it is non-zero; `args.split = some 0` falls through to the
compress branch. -/
def mainDispatch (args : Args) : MainAction :=
  match args.split with
  | some n => if n ≠ 0 then .runSplit args.input n args.outPre else compressRoute args
  | none => compressRoute args

/-- Effect of one event on a filesystem modelled as a partial map from
paths to contents.  Only the event target changes; `rmtreeE d` removes
the directory and everything below it. -/
def applyFsEvent (fs : String → Option String) : FsEvent → String → Option String
  | .openRead _, q => fs q
  | .writeFile p, q => if q == p then some "written" else fs q
  | .removeFile p, q => if q == p then none else fs q
  | .mkdtempE d, q => if q == d then some "dir" else fs q
  | .rmtreeE d, q => if (q == d) || (d ++ "/").isPrefixOf q then none else fs q
  | .whichGs, q => fs q
  | .runGs _ _ dst, q => if q == dst then some "gs-output" else fs q

/-- Run a trace of events over a filesystem. -/
def runFs (fs : String → Option String) (tr : List FsEvent) : String → Option String :=
  tr.foldl applyFsEvent fs

/-- Whether an event can change the file at path `p`: exactly the
condition under which `applyFsEvent` moves away from `fs p`. -/
def eventModifies (p : String) : FsEvent → Bool
  | .openRead _ => false
  | .writeFile q => p == q
  | .removeFile q => p == q
  | .mkdtempE d => p == d
  | .rmtreeE d => (p == d) || (d ++ "/").isPrefixOf p
  | .whichGs => false
  | .runGs _ _ dst => p == dst

/-- A tiny concrete filesystem holding only the input file, used by
witnesses. -/
def fs0 : String → Option String :=
  fun q => if q == "in.pdf" then some "original-content" else none

/-- C4: the preset mapping is a pure step function of dpi alone:
dpi ≤ 72 yields "screen", 72 < dpi ≤ 150 yields "ebook",
150 < dpi ≤ 300 yields "printer", dpi > 300 yields "prepress"; the
boundary inputs 73, 151 and 301 map to "ebook", "printer" and
"prepress" respectively. -/
theorem get_gs_preset_step (dpi quality : Int) :
    (dpi ≤ 72 → get_gs_preset dpi quality = "screen")
    ∧ (72 < dpi → dpi ≤ 150 → get_gs_preset dpi quality = "ebook")
    ∧ (150 < dpi → dpi ≤ 300 → get_gs_preset dpi quality = "printer")
    ∧ (300 < dpi → get_gs_preset dpi quality = "prepress")
    ∧ get_gs_preset 73 quality = "ebook"
    ∧ get_gs_preset 151 quality = "printer"
    ∧ get_gs_preset 301 quality = "prepress" := by
  unfold get_gs_preset
  refine ⟨?_, ?_, ?_, ?_, by decide, by decide, by decide⟩
  · intro h1
    rw [if_pos h1]
  · intro h1 h2
    rw [if_neg (by omega), if_pos h2]
  · intro h1 h2
    rw [if_neg (by omega), if_neg (by omega), if_pos h2]
  · intro h1
    rw [if_neg (by omega), if_neg (by omega), if_neg (by omega)]

/-- Witness for C4 at concrete boundary inputs. -/
theorem get_gs_preset_step_witness :
    get_gs_preset 72 0 = "screen" ∧ get_gs_preset 150 0 = "ebook" := by
  exact ⟨(get_gs_preset_step 72 0).1 (by norm_num),
         (get_gs_preset_step 150 0).2.1 (by norm_num) (by norm_num)⟩

/-- C9: for a fixed dpi, any two quality percentages select the same
preset; the quality argument never influences the result. -/
theorem get_gs_preset_ignores_quality (dpi q1 q2 : Int) :
    get_gs_preset dpi q1 = get_gs_preset dpi q2 := rfl

/-- C6: an unknown quality name fails with the invalid-quality error and
an empty event trace: no scratch directory is created and the input file
is never opened. -/
theorem compress_pdf_invalid_quality (env : CompressEnv)
    (input_path output_path tempDir quality : String)
    (h : lookupQuality quality = none) :
    compress_pdf env input_path output_path tempDir quality
      = ([], .err .invalidQuality) := by
  unfold compress_pdf
  rw [h]

/-- Witness for C6 at the concrete unknown quality name "ultra". -/
theorem compress_pdf_invalid_quality_witness :
    compress_pdf ⟨true, true, true, 0⟩ "in.pdf" "out.pdf" "scratchdir" "ultra"
      = ([], .err .invalidQuality) :=
  compress_pdf_invalid_quality ⟨true, true, true, 0⟩ "in.pdf" "out.pdf"
    "scratchdir" "ultra" (by decide)

/-- No event of the `try` body creates or removes a scratch directory:
`tempfile.mkdtemp` and `shutil.rmtree` appear only in `compress_pdf`
itself, outside the body. -/
theorem compressBody_no_scratchCtl (env : CompressEnv)
    (input_path output_path tempDir : String) (s : QualityProfile) :
    ∀ e ∈ (compressBody env input_path output_path tempDir s).1,
      e.isScratchCtl = false := by
  unfold compressBody run_ghostscript
  cases hro : env.readOk <;> cases hwo : env.writeOk <;>
    cases hgp : env.gsPresent <;> by_cases hge : env.gsExit = 0 <;>
      simp [hge, FsEvent.isScratchCtl]

/-- C3: for every valid quality name and every environment (success,
read/copy/serialize failure, missing engine, engine failure), the trace
of `compress_pdf` is exactly one `mkdtemp` first, then body events none
of which touch the scratch directory lifecycle, then one `rmtree` as the
last action before the call returns or re-raises; the outcome is the
body outcome, so cleanup masks no result. -/
theorem compress_pdf_scratch_cleanup (env : CompressEnv)
    (input_path output_path tempDir quality : String) (s : QualityProfile)
    (h : lookupQuality quality = some s) :
    ∃ mid, (compress_pdf env input_path output_path tempDir quality).1
        = FsEvent.mkdtempE tempDir :: (mid ++ [FsEvent.rmtreeE tempDir])
      ∧ (∀ e ∈ mid, e.isScratchCtl = false)
      ∧ (compress_pdf env input_path output_path tempDir quality).2
        = (compressBody env input_path output_path tempDir s).2 := by
  refine ⟨(compressBody env input_path output_path tempDir s).1, ?_,
    compressBody_no_scratchCtl env input_path output_path tempDir s, ?_⟩ <;>
  · unfold compress_pdf
    rw [h]

/-- Witness for C3: with every step succeeding and quality "low", the
trace opens with the mkdtemp and its very last event is the rmtree. -/
theorem compress_pdf_scratch_cleanup_witness :
    ((compress_pdf ⟨true, true, true, 0⟩ "in.pdf" "out.pdf" "scratchdir" "low").1.head?
        = some (FsEvent.mkdtempE "scratchdir"))
    ∧ ((compress_pdf ⟨true, true, true, 0⟩ "in.pdf" "out.pdf" "scratchdir" "low").1.getLast?
        = some (FsEvent.rmtreeE "scratchdir")) := by
  obtain ⟨mid, h1, h2, h3⟩ :=
    compress_pdf_scratch_cleanup ⟨true, true, true, 0⟩ "in.pdf" "out.pdf" "scratchdir"
      "low" ⟨30, 72⟩ (by decide)
  rw [h1]
  exact ⟨rfl, by rw [← List.cons_append, List.getLast?_concat]⟩

/-- C8: when the engine binary is not discoverable, no Ghostscript
subprocess invocation ever appears in the trace, and (when the quality
name is valid and reading and serializing succeed, so the call reaches
the engine step) the call fails with the missing-dependency error. -/
theorem compress_pdf_missing_engine (env : CompressEnv)
    (input_path output_path tempDir quality : String)
    (hgs : env.gsPresent = false) :
    invokesEngine (compress_pdf env input_path output_path tempDir quality).1 = false
    ∧ ((lookupQuality quality).isSome = true → env.readOk = true →
        env.writeOk = true →
        (compress_pdf env input_path output_path tempDir quality).2
          = Outcome.err CompressError.missingDependency) := by
  unfold compress_pdf
  cases hq : lookupQuality quality with
  | none => exact ⟨by simp [invokesEngine], by simp⟩
  | some s =>
    refine ⟨?_, fun _ hro hwo => ?_⟩
    · unfold compressBody run_ghostscript
      cases hro : env.readOk <;> cases hwo : env.writeOk <;>
        simp [hro, hwo, hgs, invokesEngine]
    · unfold compressBody run_ghostscript
      simp [hro, hwo, hgs]

/-- Witness for C8 at a concrete environment with the engine absent. -/
theorem compress_pdf_missing_engine_witness :
    invokesEngine (compress_pdf ⟨true, true, false, 0⟩ "in.pdf" "out.pdf"
        "scratchdir" "medium").1 = false
    ∧ (compress_pdf ⟨true, true, false, 0⟩ "in.pdf" "out.pdf"
        "scratchdir" "medium").2
      = Outcome.err CompressError.missingDependency := by
  have h := compress_pdf_missing_engine ⟨true, true, false, 0⟩ "in.pdf" "out.pdf"
    "scratchdir" "medium" rfl
  exact ⟨h.1, h.2 (by decide) rfl rfl⟩

/-- Concatenating the pages of the sealed parts, then the pages still
held by the current writer, reproduces the accumulation so far followed
by the remaining input pages, in order. -/
theorem splitLoop_flatten (outPre : String) (maxB : Nat) :
    ∀ (ps : List (α × Nat)) (cp : Nat) (cur : List (α × Nat)) (est : Nat),
      ((splitLoop outPre maxB ps cp cur est).1.map (fun p => p.pages)).flatten
          ++ (splitLoop outPre maxB ps cp cur est).2.2.1
        = cur ++ ps := by
  intro ps
  induction ps with
  | nil =>
    intro cp cur est
    simp [splitLoop]
  | cons hd rest ih =>
    obtain ⟨pg, sz⟩ := hd
    intro cp cur est
    simp only [splitLoop]
    by_cases h : maxB < est + sz ∧ 0 < cur.length
    · rw [if_pos h]
      simp only [List.map_cons, List.flatten_cons, List.append_assoc, ih]
      simp
    · rw [if_neg h]
      rw [ih]
      simp

/-- The sealed part paths carry consecutive part numbers starting at the
incoming `current_part` counter, and the counter advances by exactly the
number of parts sealed. -/
theorem splitLoop_paths (outPre : String) (maxB : Nat) :
    ∀ (ps : List (α × Nat)) (cp : Nat) (cur : List (α × Nat)) (est : Nat),
      (splitLoop outPre maxB ps cp cur est).1.map (fun p => p.path)
          = pathsFrom outPre cp (splitLoop outPre maxB ps cp cur est).1.length
      ∧ (splitLoop outPre maxB ps cp cur est).2.1
          = cp + (splitLoop outPre maxB ps cp cur est).1.length := by
  intro ps
  induction ps with
  | nil =>
    intro cp cur est
    simp [splitLoop, pathsFrom]
  | cons hd rest ih =>
    obtain ⟨pg, sz⟩ := hd
    intro cp cur est
    simp only [splitLoop]
    by_cases h : maxB < est + sz ∧ 0 < cur.length
    · rw [if_pos h]
      obtain ⟨ih1, ih2⟩ := ih (cp + 1) [(pg, sz)] sz
      constructor
      · simp only [List.map_cons, List.length_cons, ih1]
        simp [pathsFrom]
      · simp only [List.length_cons, ih2]
        omega
    · rw [if_neg h]
      exact ih cp (cur ++ [(pg, sz)]) (est + sz)

/-- The accumulation invariant is preserved by the loop: every sealed
part is non-empty and satisfies it, and so does the final state. -/
theorem splitLoop_good (outPre : String) (maxB : Nat) :
    ∀ (ps : List (α × Nat)) (cp : Nat) (cur : List (α × Nat)) (est : Nat),
      InvCur maxB cur est →
      (∀ p ∈ (splitLoop outPre maxB ps cp cur est).1,
          0 < p.pages.length ∧ InvCur maxB p.pages p.est)
      ∧ InvCur maxB (splitLoop outPre maxB ps cp cur est).2.2.1
          (splitLoop outPre maxB ps cp cur est).2.2.2 := by
  intro ps
  induction ps with
  | nil =>
    intro cp cur est hinv
    exact ⟨by simp [splitLoop], by simpa [splitLoop] using hinv⟩
  | cons hd rest ih =>
    obtain ⟨pg, sz⟩ := hd
    intro cp cur est hinv
    simp only [splitLoop]
    by_cases h : maxB < est + sz ∧ 0 < cur.length
    · rw [if_pos h]
      have hnew : InvCur maxB [(pg, sz)] sz := ⟨by simp, by simp, by simp⟩
      obtain ⟨ihp, ihc⟩ := ih (cp + 1) [(pg, sz)] sz hnew
      refine ⟨?_, ihc⟩
      intro p hp
      rcases List.mem_cons.mp hp with hp | hp
      · subst hp
        exact ⟨h.2, hinv⟩
      · exact ihp p hp
    · rw [if_neg h]
      apply ih
      obtain ⟨hsum, hbud, hover⟩ := hinv
      rcases Nat.eq_zero_or_pos cur.length with hlen | hlen
      · have hc : cur = [] := List.length_eq_zero.mp hlen
        subst hc
        simp only [List.map_nil, List.sum_nil] at hsum
        subst hsum
        exact ⟨by simp, by simp, by simp⟩
      · have hle : est + sz ≤ maxB := by
          rcases not_and_or.mp h with h1 | h2
          · omega
          · omega
        refine ⟨?_, fun _ => hle, ?_⟩
        · rw [hsum]
          simp
        · intro q hq hq2
          exfalso
          rcases List.mem_append.mp hq with hq | hq
          · have h1 := hover q hq hq2
            obtain ⟨a, ha⟩ := List.length_eq_one.mp h1
            rw [ha] at hsum
            have hqa : q = a := by simpa [ha] using hq
            subst hqa
            simp only [List.map_cons, List.map_nil, List.sum_cons, List.sum_nil] at hsum
            omega
          · have hqx : q = (pg, sz) := by simpa using hq
            subst hqx
            simp only at hq2
            omega

/-- Appending the next part path to a run of consecutive part paths
extends the run by one. -/
theorem pathsFrom_concat (outPre : String) :
    ∀ (n cp : Nat), pathsFrom outPre cp n ++ [partPath outPre (cp + n)]
      = pathsFrom outPre cp (n + 1) := by
  intro n
  induction n with
  | zero =>
    intro cp
    simp [pathsFrom]
  | succ n ih =>
    intro cp
    simp only [pathsFrom, List.cons_append]
    rw [show cp + (n + 1) = (cp + 1) + n by omega, ih (cp + 1)]
    simp [pathsFrom]

/-- The consecutive part paths, written with `List.range`. -/
theorem pathsFrom_eq_range (outPre : String) :
    ∀ (n cp : Nat), pathsFrom outPre cp n
      = (List.range n).map (fun i => partPath outPre (i + cp)) := by
  intro n
  induction n with
  | zero =>
    intro cp
    simp [pathsFrom]
  | succ n ih =>
    intro cp
    have hfe : ((fun i => partPath outPre (i + cp)) ∘ Nat.succ)
        = (fun i => partPath outPre (i + (cp + 1))) := by
      funext i
      simp only [Function.comp]
      congr 1
      omega
    rw [List.range_succ_eq_map, List.map_cons, List.map_map, hfe, ← ih (cp + 1)]
    simp [pathsFrom]

/-- Flattening the written parts of a whole splitter run reproduces the
input pages exactly. -/
theorem splitFinal_flatten (outPre : String) (maxB : Nat) (pages : List (α × Nat)) :
    ((splitFinal outPre (splitLoop outPre maxB pages 1 [] 0)).map
        (fun p => p.pages)).flatten = pages := by
  have hj := splitLoop_flatten outPre maxB pages 1 [] 0
  unfold splitFinal
  by_cases h : 0 < (splitLoop outPre maxB pages 1 [] 0).2.2.1.length
  · rw [if_pos h]
    simp only [List.map_append, List.map_cons, List.map_nil, List.flatten_append]
    simpa using hj
  · rw [if_neg h]
    have hc : (splitLoop outPre maxB pages 1 [] 0).2.2.1 = [] :=
      List.length_eq_zero.mp (by omega)
    rw [hc] at hj
    simpa using hj

/-- The written part paths of a whole splitter run are the consecutive
part paths starting at number 1. -/
theorem splitFinal_paths (outPre : String) (maxB : Nat) (pages : List (α × Nat)) :
    (splitFinal outPre (splitLoop outPre maxB pages 1 [] 0)).map (fun p => p.path)
      = pathsFrom outPre 1
          (splitFinal outPre (splitLoop outPre maxB pages 1 [] 0)).length := by
  have hp := splitLoop_paths outPre maxB pages 1 [] 0
  unfold splitFinal
  by_cases h : 0 < (splitLoop outPre maxB pages 1 [] 0).2.2.1.length
  · rw [if_pos h]
    simp only [List.map_append, List.map_cons, List.map_nil, List.length_append,
      List.length_cons, List.length_nil]
    rw [hp.1, hp.2, pathsFrom_concat]
  · rw [if_neg h]
    exact hp.1

/-- C1: off the short-circuit path, concatenating the parts written by
the splitter, in order, reproduces the original page sequence exactly
(hence every input page lands in exactly one part, with multiplicity
preserved), and the returned part paths carry contiguous indices
starting at 1 with no gaps. -/
theorem split_pdf_partition [DecidableEq α] (input_path outPre : String)
    (maxMb inputSize : Nat) (pages : List (α × Nat))
    (hbig : max_size_bytes maxMb < inputSize) :
    (((split_pdf input_path maxMb outPre inputSize pages).1.map
        (fun p => p.pages)).flatten = pages)
    ∧ (∀ a : α × Nat,
        ((split_pdf input_path maxMb outPre inputSize pages).1.map
            (fun p => p.pages)).flatten.count a = pages.count a)
    ∧ ((split_pdf input_path maxMb outPre inputSize pages).2
        = (List.range (split_pdf input_path maxMb outPre inputSize pages).1.length).map
            (fun i => partPath outPre (i + 1))) := by
  have hns : ¬ inputSize ≤ max_size_bytes maxMb := by omega
  have h1 : (split_pdf input_path maxMb outPre inputSize pages).1
      = splitFinal outPre (splitLoop outPre (max_size_bytes maxMb) pages 1 [] 0) := by
    unfold split_pdf
    rw [if_neg hns]
  have h2 : (split_pdf input_path maxMb outPre inputSize pages).2
      = (splitFinal outPre (splitLoop outPre (max_size_bytes maxMb) pages 1 [] 0)).map
          (fun p => p.path) := by
    unfold split_pdf
    rw [if_neg hns]
  refine ⟨?_, ?_, ?_⟩
  · rw [h1, splitFinal_flatten]
  · intro a
    rw [h1, splitFinal_flatten]
  · rw [h1, h2, splitFinal_paths, pathsFrom_eq_range]

/-- Witness for C1: three pages of 700000 bytes each against a 1 MB
budget yield parts [p0], [p1], [p2] named _part1, _part2, _part3. -/
theorem split_pdf_partition_witness :
    (((split_pdf "in.pdf" 1 "out" 2100000
        [((0 : Nat), 700000), (1, 700000), (2, 700000)]).1.map
          (fun p => p.pages)).flatten
        = [((0 : Nat), 700000), (1, 700000), (2, 700000)])
    ∧ (((split_pdf "in.pdf" 1 "out" 2100000
        [((0 : Nat), 700000), (1, 700000), (2, 700000)]).1.map
          (fun p => p.pages)).flatten.count ((1 : Nat), 700000) = 1)
    ∧ ((split_pdf "in.pdf" 1 "out" 2100000
        [((0 : Nat), 700000), (1, 700000), (2, 700000)]).2
        = (List.range (split_pdf "in.pdf" 1 "out" 2100000
            [((0 : Nat), 700000), (1, 700000), (2, 700000)]).1.length).map
            (fun i => partPath "out" (i + 1))) := by
  have h := split_pdf_partition "in.pdf" "out" 1 2100000
    [((0 : Nat), 700000), (1, 700000), (2, 700000)] (by norm_num [max_size_bytes])
  refine ⟨h.1, ?_, h.2.2⟩
  rw [h.2.1 ((1 : Nat), 700000)]
  decide

/-- C2: every part sealed by the splitter records as estimate the sum of
the measured sizes of its pages; a part holding two or more pages has estimate
within the byte budget at the moment it was sealed; and a page whose own
estimate exceeds the budget is always alone in its part. -/
theorem split_pdf_soft_budget (input_path outPre : String)
    (maxMb inputSize : Nat) (pages : List (α × Nat)) :
    ∀ p ∈ (split_pdf input_path maxMb outPre inputSize pages).1,
      p.est = (p.pages.map Prod.snd).sum
      ∧ 0 < p.pages.length
      ∧ (2 ≤ p.pages.length → p.est ≤ max_size_bytes maxMb)
      ∧ (∀ q ∈ p.pages, max_size_bytes maxMb < q.2 → p.pages.length = 1) := by
  intro p hp
  unfold split_pdf at hp
  by_cases hss : inputSize ≤ max_size_bytes maxMb
  · rw [if_pos hss] at hp
    simp at hp
  · rw [if_neg hss] at hp
    have hg := splitLoop_good outPre (max_size_bytes maxMb) pages 1 [] 0
      ⟨by simp, by simp, by simp⟩
    unfold splitFinal at hp
    by_cases h : 0 < (splitLoop outPre (max_size_bytes maxMb) pages 1 [] 0).2.2.1.length
    · rw [if_pos h] at hp
      rcases List.mem_append.mp hp with hp | hp
      · obtain ⟨hpos, hinv⟩ := hg.1 p hp
        obtain ⟨ha, hb, hc⟩ := hinv
        exact ⟨ha, hpos, hb, hc⟩
      · have hpe : p = ⟨partPath outPre
            (splitLoop outPre (max_size_bytes maxMb) pages 1 [] 0).2.1,
            (splitLoop outPre (max_size_bytes maxMb) pages 1 [] 0).2.2.1,
            (splitLoop outPre (max_size_bytes maxMb) pages 1 [] 0).2.2.2⟩ := by
          simpa using hp
        obtain ⟨hs1, hs2, hs3⟩ := hg.2
        subst hpe
        exact ⟨hs1, h, hs2, hs3⟩
    · rw [if_neg h] at hp
      obtain ⟨hpos, hinv⟩ := hg.1 p hp
      obtain ⟨ha, hb, hc⟩ := hinv
      exact ⟨ha, hpos, hb, hc⟩

/-- Witness for C2: a single 2000000-byte page against a 1 MB budget is
sealed alone into _part1, over budget. -/
theorem split_pdf_soft_budget_witness :
    ((⟨"out_part1.pdf", [((0 : Nat), 2000000)], 2000000⟩ : SealedPart Nat).pages.length
      = 1) := by
  have h := split_pdf_soft_budget (α := Nat) "in.pdf" "out" 1 2000000
    [(0, 2000000)] ⟨"out_part1.pdf", [(0, 2000000)], 2000000⟩ (by decide)
  exact h.2.2.2 (0, 2000000) (by decide) (by decide)

/-- C5: when the whole input file already fits the byte budget, the
splitter returns exactly the original input path, and its only
filesystem action is opening the input for reading: no part file, no
temporary file, no copy. -/
theorem split_pdf_short_circuit (input_path outPre : String)
    (maxMb inputSize : Nat) (pages : List (α × Nat)) (tmps : List String)
    (h : inputSize ≤ max_size_bytes maxMb) :
    split_pdf input_path maxMb outPre inputSize pages = ([], [input_path])
    ∧ split_fsTrace input_path outPre maxMb inputSize pages tmps
        = [FsEvent.openRead input_path] := by
  constructor
  · unfold split_pdf
    rw [if_pos h]
  · unfold split_fsTrace
    rw [if_pos h]

/-- Witness for C5 at a concrete small input. -/
theorem split_pdf_short_circuit_witness :
    split_pdf "in.pdf" 25 "out" 1000 [((0 : Nat), 1000)] = ([], ["in.pdf"])
    ∧ split_fsTrace "in.pdf" "out" 25 1000 [((0 : Nat), 1000)] ["tmp1"]
        = [FsEvent.openRead "in.pdf"] :=
  split_pdf_short_circuit "in.pdf" "out" 25 1000 [((0 : Nat), 1000)] ["tmp1"]
    (by norm_num [max_size_bytes])

/-- Counterexample to C7 as stated: with a split size given on the
command line but equal to 0 (`-s 0`), `if args.split:` is falsy, so the
front-end does NOT route to split mode; it falls through to the
compress branch. -/
theorem mainDispatch_split_zero_cex :
    (mainDispatch ⟨"in.pdf", some "out.pdf", "medium", some 0, none, false⟩
        = MainAction.runCompress "in.pdf" "out.pdf" "medium")
    ∧ ((mainDispatch ⟨"in.pdf", some "out.pdf", "medium", some 0, none, false⟩
        ).isSplitMode = false) := by
  exact ⟨rfl, rfl⟩

/-- C7 (amended): the front-end routes to split mode whenever a NONZERO
split size is given; a split size of 0 is treated like an absent one
(Python truthiness) and falls through to compress mode; compress mode
exits non-zero with an error message when no output path, or an empty
one (string truthiness at line 177), is supplied, and otherwise invokes
the compressor with the given output path and quality. -/
theorem mainDispatch_routing (args : Args) :
    (∀ n : Int, args.split = some n → n ≠ 0 →
        mainDispatch args = MainAction.runSplit args.input n args.outPre)
    ∧ (args.split = some 0 → mainDispatch args = compressRoute args)
    ∧ (args.split = none → mainDispatch args = compressRoute args)
    ∧ (args.output = none →
        compressRoute args = MainAction.errorExit "Output path required for compression.")
    ∧ (args.output = some "" →
        compressRoute args = MainAction.errorExit "Output path required for compression.")
    ∧ (∀ out : String, args.output = some out → out ≠ "" →
        compressRoute args = MainAction.runCompress args.input out args.quality) := by
  refine ⟨?_, ?_, ?_, ?_, ?_, ?_⟩
  · intro n hn hnz
    unfold mainDispatch
    rw [hn]
    simp [hnz]
  · intro h0
    unfold mainDispatch
    rw [h0]
    simp
  · intro hnone
    unfold mainDispatch
    rw [hnone]
  · intro ho
    unfold compressRoute
    rw [ho]
  · intro ho
    unfold compressRoute
    rw [ho]
    simp
  · intro out ho hne
    unfold compressRoute
    rw [ho]
    simp only []
    rw [if_neg hne]

/-- Witness for C7 (amended) at concrete argument records: a nonzero
split size routes to split mode; with neither split size nor output the
compress branch error-exits; an empty output string also error-exits;
a real output path reaches the compressor. -/
theorem mainDispatch_routing_witness :
    (mainDispatch ⟨"in.pdf", none, "medium", some 5, some "pre", false⟩
        = MainAction.runSplit "in.pdf" 5 (some "pre"))
    ∧ (mainDispatch ⟨"in.pdf", none, "medium", none, none, false⟩
        = MainAction.errorExit "Output path required for compression.")
    ∧ (compressRoute ⟨"in.pdf", some "", "medium", none, none, false⟩
        = MainAction.errorExit "Output path required for compression.")
    ∧ (compressRoute ⟨"in.pdf", some "out.pdf", "medium", none, none, false⟩
        = MainAction.runCompress "in.pdf" "out.pdf" "medium") := by
  refine ⟨?_, ?_, ?_, ?_⟩
  · exact (mainDispatch_routing
      ⟨"in.pdf", none, "medium", some 5, some "pre", false⟩).1 5 rfl (by norm_num)
  · have h := mainDispatch_routing ⟨"in.pdf", none, "medium", none, none, false⟩
    rw [h.2.2.1 rfl, h.2.2.2.1 rfl]
  · exact (mainDispatch_routing
      ⟨"in.pdf", some "", "medium", none, none, false⟩).2.2.2.2.1 rfl
  · exact (mainDispatch_routing
      ⟨"in.pdf", some "out.pdf", "medium", none, none, false⟩).2.2.2.2.2
      "out.pdf" rfl (by decide)

/-- Frame property of the event semantics: a trace none of whose events
can modify path `p` leaves the file at `p` untouched. -/
theorem runFs_frame (p : String) :
    ∀ (tr : List FsEvent) (fs : String → Option String),
      (∀ e ∈ tr, eventModifies p e = false) → runFs fs tr p = fs p := by
  intro tr
  induction tr with
  | nil =>
    intro fs _
    rfl
  | cons e tr ih =>
    intro fs hmod
    have he := hmod e (List.mem_cons_self e tr)
    have htr : ∀ x ∈ tr, eventModifies p x = false :=
      fun x hx => hmod x (List.mem_cons_of_mem e hx)
    show runFs (applyFsEvent fs e) tr p = fs p
    rw [ih (applyFsEvent fs e) htr]
    cases e with
    | openRead q => rfl
    | whichGs => rfl
    | writeFile q =>
      simp only [eventModifies] at he
      simp [applyFsEvent, he]
    | removeFile q =>
      simp only [eventModifies] at he
      simp [applyFsEvent, he]
    | mkdtempE d =>
      simp only [eventModifies] at he
      simp [applyFsEvent, he]
    | rmtreeE d =>
      simp only [eventModifies] at he
      simp only [applyFsEvent, he]
      simp
    | runGs pr src dst =>
      simp only [eventModifies] at he
      simp [applyFsEvent, he]

/-- C10: with the generated output destinations (part files, the
Ghostscript output path, the scratch directory and its contents, the
per-page estimation temporaries) all different from the input path, no
event of either a split or a compress call can modify the input file:
the input appears in the traces only in read opens, and running either
trace over any filesystem leaves the content at the input path exactly
as it was. -/
theorem input_file_frame (fs : String → Option String)
    (input_path output_path tempDir outPre quality : String)
    (maxMb inputSize : Nat) (pages : List (α × Nat)) (tmps : List String)
    (env : CompressEnv)
    (hsplit : ∀ p ∈ (split_pdf input_path maxMb outPre inputSize pages).1,
        input_path ≠ p.path)
    (htmps : ∀ t ∈ tmps, input_path ≠ t)
    (hout : input_path ≠ output_path)
    (hdir : input_path ≠ tempDir)
    (hdirp : ((tempDir ++ "/").isPrefixOf input_path) = false)
    (hscratch : input_path ≠ scratchFile tempDir) :
    ((∀ e ∈ split_fsTrace input_path outPre maxMb inputSize pages tmps,
        eventModifies input_path e = false)
      ∧ runFs fs (split_fsTrace input_path outPre maxMb inputSize pages tmps)
          input_path = fs input_path)
    ∧ ((∀ e ∈ (compress_pdf env input_path output_path tempDir quality).1,
        eventModifies input_path e = false)
      ∧ runFs fs (compress_pdf env input_path output_path tempDir quality).1
          input_path = fs input_path) := by
  have hsplitTrace : ∀ e ∈ split_fsTrace input_path outPre maxMb inputSize pages tmps,
      eventModifies input_path e = false := by
    intro e he
    unfold split_fsTrace at he
    by_cases hss : inputSize ≤ max_size_bytes maxMb
    · rw [if_pos hss] at he
      simp only [List.mem_singleton] at he
      subst he
      rfl
    · rw [if_neg hss] at he
      rcases List.mem_cons.mp he with he | he
      · subst he
        rfl
      · rcases List.mem_append.mp he with he | he
        · obtain ⟨l, hl, hel⟩ := List.mem_flatten.mp he
          obtain ⟨t, ht, rfl⟩ := List.mem_map.mp hl
          have htne : (input_path == t) = false :=
            beq_eq_false_iff_ne.mpr (htmps t ht)
          rcases List.mem_cons.mp hel with rfl | hel
          · exact htne
          · rcases List.mem_cons.mp hel with rfl | hel
            · exact htne
            · simp at hel
        · obtain ⟨p, hp, rfl⟩ := List.mem_map.mp he
          exact beq_eq_false_iff_ne.mpr (hsplit p hp)
  have hcompressTrace :
      ∀ e ∈ (compress_pdf env input_path output_path tempDir quality).1,
        eventModifies input_path e = false := by
    have hd1 : (input_path == tempDir) = false := beq_eq_false_iff_ne.mpr hdir
    have hd2 : (input_path == scratchFile tempDir) = false :=
      beq_eq_false_iff_ne.mpr hscratch
    have hd3 : (input_path == output_path) = false := beq_eq_false_iff_ne.mpr hout
    unfold compress_pdf compressBody run_ghostscript
    cases hq : lookupQuality quality with
    | none => simp
    | some s =>
      cases hro : env.readOk <;> cases hwo : env.writeOk <;>
        cases hgp : env.gsPresent <;> by_cases hge : env.gsExit = 0 <;>
          simp [hge, eventModifies, hd1, hd2, hd3, hdirp]
  exact ⟨⟨hsplitTrace, runFs_frame input_path _ fs hsplitTrace⟩,
         ⟨hcompressTrace, runFs_frame input_path _ fs hcompressTrace⟩⟩

/-- Witness for C10: a concrete filesystem holding only the input file
is unchanged at the input path by a concrete split run and a concrete
compress run. -/
theorem input_file_frame_witness :
    (runFs fs0 (split_fsTrace "in.pdf" "out" 1 2100000
        [((0 : Nat), 700000), (1, 700000), (2, 700000)]
        ["tmpa", "tmpb", "tmpc"]) "in.pdf" = fs0 "in.pdf")
    ∧ (runFs fs0 (compress_pdf ⟨true, true, true, 0⟩ "in.pdf" "out.pdf"
        "scratchdir" "medium").1 "in.pdf" = fs0 "in.pdf") := by
  have h := input_file_frame fs0 "in.pdf" "out.pdf" "scratchdir" "out" "medium"
    1 2100000 [((0 : Nat), 700000), (1, 700000), (2, 700000)]
    ["tmpa", "tmpb", "tmpc"] ⟨true, true, true, 0⟩
    (by decide) (by decide) (by decide) (by decide) (by decide) (by decide)
  exact ⟨h.1.2, h.2.2⟩

end PdfProcessor
